import Mathlib

/-!
Verification of the geometric core of `circumcircle3.py`: the circumcircle
solver `Circumcircle.get_circle_params`, the segment-skipping drawing helper
`draw_line3d`, and the plane-basis construction of `draw_circle3d`.

Numpy double arithmetic is modelled by exact real arithmetic: a length-3
numpy array becomes a triple of reals, `np.linalg.solve` becomes the exact
3×3 solve that fails (raises `LinAlgError`, here `none`) exactly on a
singular matrix, and `np.isclose(x, 0)` becomes the exact test `x = 0`.
-/

namespace Circumcircle3

noncomputable section

/-- A length-3 numpy array of doubles, modelled as a triple of reals. -/
abbrev Vec3 := ℝ × ℝ × ℝ

/-- Componentwise subtraction of numpy arrays (`u - v`). -/
def sub3 (u v : Vec3) : Vec3 :=
  (u.1 - v.1, u.2.1 - v.2.1, u.2.2 - v.2.2)

/-- Componentwise addition of numpy arrays (`u + v`). -/
def add3 (u v : Vec3) : Vec3 :=
  (u.1 + v.1, u.2.1 + v.2.1, u.2.2 + v.2.2)

/-- Scalar times array (`t * v`, also `v / s` as `smul3 s⁻¹ v`). -/
def smul3 (t : ℝ) (v : Vec3) : Vec3 :=
  (t * v.1, t * v.2.1, t * v.2.2)

/-- `u.dot(v)`; also `np.sum(v**2)` as `dot3 v v`. -/
def dot3 (u v : Vec3) : ℝ :=
  u.1 * v.1 + u.2.1 * v.2.1 + u.2.2 * v.2.2

/-- `np.cross(u, v)`. -/
def cross3 (u v : Vec3) : Vec3 :=
  (u.2.1 * v.2.2 - u.2.2 * v.2.1,
   u.2.2 * v.1 - u.1 * v.2.2,
   u.1 * v.2.1 - u.2.1 * v.1)

/-- Determinant of the 3×3 matrix with rows `r1, r2, r3` (scalar triple
product form). -/
def det3 (r1 r2 r3 : Vec3) : ℝ :=
  dot3 r1 (cross3 r2 r3)

/-- `np.linalg.norm(v)`. -/
def norm3 (v : Vec3) : ℝ :=
  Real.sqrt (dot3 v v)

/-- Model of `np.linalg.solve` on the 3×3 system with rows `r1, r2, r3` and
right-hand side `d`: `none` models the `LinAlgError` raised for a singular
matrix; otherwise the unique solution, written in Cramer form
`det⁻¹ • (d₁ (r2 × r3) + d₂ (r3 × r1) + d₃ (r1 × r2))`. -/
def solve3 (r1 r2 r3 d : Vec3) : Option Vec3 :=
  if det3 r1 r2 r3 = 0 then none
  else
    some (smul3 (det3 r1 r2 r3)⁻¹
      (add3 (add3 (smul3 d.1 (cross3 r2 r3)) (smul3 d.2.1 (cross3 r3 r1)))
        (smul3 d.2.2 (cross3 r1 r2))))

/-- `Circumcircle.get_circle_params` (source lines 102–141) on the three node
positions `a, b, c`: build `normal = np.cross(b - a, c - a)`, the matrix `A`
with rows `b - a`, `c - b`, `normal`, the right-hand side
`[0.5*(‖b‖² - ‖a‖²), 0.5*(‖c‖² - ‖b‖²), a.dot(normal)]`; return `None` when
`np.linalg.solve` raises, else `(center, normal / ‖normal‖, ‖center - a‖)`. -/
def get_circle_params (a b c : Vec3) : Option (Vec3 × Vec3 × ℝ) :=
  let normal := cross3 (sub3 b a) (sub3 c a)
  let rhs : Vec3 :=
    (0.5 * (dot3 b b - dot3 a a), 0.5 * (dot3 c c - dot3 b b), dot3 a normal)
  (solve3 (sub3 b a) (sub3 c b) normal rhs).map fun center =>
    (center, smul3 (norm3 normal)⁻¹ normal, norm3 (sub3 center a))

/-- The three points lie on one straight line: one of the two edge vectors
out of `a` is a scalar multiple of the other (this also covers every triple
with two coincident points, by the zero vector). -/
def Collinear3 (a b c : Vec3) : Prop :=
  ∃ t : ℝ, sub3 c a = smul3 t (sub3 b a) ∨ sub3 b a = smul3 t (sub3 c a)

/-- `draw_line3d` (source lines 35–46) with the camera's `world_to_screen`
abstracted: the 2D line-segment draw call it emits, or `none` when it emits
nothing (`pygame.draw.line` runs only when both projections are not `None`). -/
def draw_line3d {P : Type} (world_to_screen : Vec3 → Option P)
    (start stop : Vec3) : Option (P × P) :=
  match world_to_screen start, world_to_screen stop with
  | some s2, some e2 => some (s2, e2)
  | _, _ => none

/-- The `orth1` of `draw_circle3d` before normalization (source lines 59–68),
with `np.isclose(·, 0)` modelled as the exact test `· = 0`. -/
def orth1 (n : Vec3) : Vec3 :=
  if n.1 = 0 then (1, 0, 0)
  else if n.2.1 = 0 then (0, 1, 0)
  else if n.2.2 = 0 then (0, 0, 1)
  else (n.2.1 * n.2.2, -2 * n.1 * n.2.2, n.1 * n.2.1)

/-- `orth1 /= np.linalg.norm(orth1)` (source line 69). -/
def orth1n (n : Vec3) : Vec3 :=
  smul3 (norm3 (orth1 n))⁻¹ (orth1 n)

/-- `orth2 = np.cross(normal, orth1)` (source line 70). -/
def orth2 (n : Vec3) : Vec3 :=
  cross3 n (orth1n n)

/-- The positions of the three nodes a `Circumcircle` holds (`self.nodes`). -/
structure CircumcircleNodes where
  node0 : Vec3
  node1 : Vec3
  node2 : Vec3

/-- `Circumcircle.get_circle_params` as a state transformer on the node
positions: the method only reads `self.nodes[0..2].position` (source lines
106–108) and assigns to nothing, so the state it leaves behind is the state
it was called in. -/
def get_circle_params_method (s : CircumcircleNodes) :
    CircumcircleNodes × Option (Vec3 × Vec3 × ℝ) :=
  (s, get_circle_params s.node0 s.node1 s.node2)

/-- The solver exactly as the spec's §4.1 words it, for the refinement check:
rows `b - a`, `c - b`, `normal` as a Mathlib matrix, right-hand side
`[0.5·(‖b‖² − ‖a‖²), 0.5·(‖c‖² − ‖b‖²), a·normal]`, the system solved with
the matrix inverse, `Degenerate` on a singular matrix. -/
def solve_spec (a b c : Vec3) : Option (Vec3 × Vec3 × ℝ) :=
  let normal := cross3 (sub3 b a) (sub3 c a)
  let A : Matrix (Fin 3) (Fin 3) ℝ :=
    !![(sub3 b a).1, (sub3 b a).2.1, (sub3 b a).2.2;
       (sub3 c b).1, (sub3 c b).2.1, (sub3 c b).2.2;
       normal.1, normal.2.1, normal.2.2]
  let rhs : Fin 3 → ℝ :=
    ![0.5 * (dot3 b b - dot3 a a), 0.5 * (dot3 c c - dot3 b b), dot3 a normal]
  if A.det = 0 then none
  else
    let x := A⁻¹.mulVec rhs
    some ((x 0, x 1, x 2),
      smul3 (norm3 normal)⁻¹ normal, norm3 (sub3 (x 0, x 1, x 2) a))

end

/-! Basic componentwise facts. -/

theorem dot3_self_nonneg (v : Vec3) : 0 ≤ dot3 v v := by
  have h1 := mul_self_nonneg v.1
  have h2 := mul_self_nonneg v.2.1
  have h3 := mul_self_nonneg v.2.2
  simp only [dot3]
  linarith

theorem dot3_self_eq_zero (v : Vec3) : dot3 v v = 0 ↔ v = ((0 : ℝ), (0 : ℝ), (0 : ℝ)) := by
  obtain ⟨x, y, z⟩ := v
  simp only [dot3, Prod.mk.injEq]
  constructor
  · intro h
    have hx : x * x = 0 := le_antisymm (by nlinarith [mul_self_nonneg y, mul_self_nonneg z]) (mul_self_nonneg x)
    have hy : y * y = 0 := le_antisymm (by nlinarith [mul_self_nonneg x, mul_self_nonneg z]) (mul_self_nonneg y)
    have hz : z * z = 0 := le_antisymm (by nlinarith [mul_self_nonneg x, mul_self_nonneg y]) (mul_self_nonneg z)
    exact ⟨mul_self_eq_zero.mp hx, mul_self_eq_zero.mp hy, mul_self_eq_zero.mp hz⟩
  · rintro ⟨hx, hy, hz⟩
    subst hx; subst hy; subst hz; ring

theorem dot3_self_pos {v : Vec3} (h : v ≠ ((0 : ℝ), (0 : ℝ), (0 : ℝ))) : 0 < dot3 v v :=
  lt_of_le_of_ne (dot3_self_nonneg v) (fun he => h ((dot3_self_eq_zero v).mp he.symm))

theorem norm3_nonneg (v : Vec3) : 0 ≤ norm3 v :=
  Real.sqrt_nonneg _

theorem norm3_pos {v : Vec3} (h : v ≠ ((0 : ℝ), (0 : ℝ), (0 : ℝ))) : 0 < norm3 v :=
  Real.sqrt_pos.mpr (dot3_self_pos h)

theorem norm3_smul (t : ℝ) (v : Vec3) : norm3 (smul3 t v) = |t| * norm3 v := by
  simp only [norm3, smul3, dot3]
  rw [show t * v.1 * (t * v.1) + t * v.2.1 * (t * v.2.1) + t * v.2.2 * (t * v.2.2)
      = t ^ 2 * (v.1 * v.1 + v.2.1 * v.2.1 + v.2.2 * v.2.2) from by ring,
    Real.sqrt_mul (sq_nonneg t), Real.sqrt_sq_eq_abs]

theorem norm3_unit_of_ne {v : Vec3} (h : v ≠ ((0 : ℝ), (0 : ℝ), (0 : ℝ))) :
    norm3 (smul3 (norm3 v)⁻¹ v) = 1 := by
  rw [norm3_smul, abs_of_nonneg (inv_nonneg.mpr (norm3_nonneg v)),
    inv_mul_cancel₀ (ne_of_gt (norm3_pos h))]

theorem dot3_smul_right (u : Vec3) (t : ℝ) (v : Vec3) :
    dot3 u (smul3 t v) = t * dot3 u v := by
  simp only [dot3, smul3]; ring

theorem dot3_cross_left (u v : Vec3) : dot3 u (cross3 u v) = 0 := by
  simp only [dot3, cross3]; ring

theorem dot3_cross_right (u v : Vec3) : dot3 v (cross3 u v) = 0 := by
  simp only [dot3, cross3]; ring

theorem dot3_cross_self_lagrange (u v : Vec3) :
    dot3 (cross3 u v) (cross3 u v) = dot3 u u * dot3 v v - dot3 u v ^ 2 := by
  simp only [dot3, cross3]; ring

/-! The 3×3 solve: failure exactly on a singular matrix, and the solution
satisfies the system. -/

theorem solve3_eq_none_iff (r1 r2 r3 d : Vec3) :
    solve3 r1 r2 r3 d = none ↔ det3 r1 r2 r3 = 0 := by
  unfold solve3
  split <;> simp_all

theorem solve3_eq_some {r1 r2 r3 d x : Vec3} (h : solve3 r1 r2 r3 d = some x) :
    det3 r1 r2 r3 ≠ 0 ∧ dot3 r1 x = d.1 ∧ dot3 r2 x = d.2.1 ∧ dot3 r3 x = d.2.2 := by
  unfold solve3 at h
  by_cases hD : det3 r1 r2 r3 = 0
  · simp [hD] at h
  · rw [if_neg hD] at h
    refine ⟨hD, ?_, ?_, ?_⟩ <;> rw [← Option.some_inj.mp h, dot3_smul_right]
    · have hw : dot3 r1
          (add3 (add3 (smul3 d.1 (cross3 r2 r3)) (smul3 d.2.1 (cross3 r3 r1)))
            (smul3 d.2.2 (cross3 r1 r2))) = det3 r1 r2 r3 * d.1 := by
        simp only [dot3, add3, smul3, cross3, det3]; ring
      rw [hw, inv_mul_cancel_left₀ hD]
    · have hw : dot3 r2
          (add3 (add3 (smul3 d.1 (cross3 r2 r3)) (smul3 d.2.1 (cross3 r3 r1)))
            (smul3 d.2.2 (cross3 r1 r2))) = det3 r1 r2 r3 * d.2.1 := by
        simp only [dot3, add3, smul3, cross3, det3]; ring
      rw [hw, inv_mul_cancel_left₀ hD]
    · have hw : dot3 r3
          (add3 (add3 (smul3 d.1 (cross3 r2 r3)) (smul3 d.2.1 (cross3 r3 r1)))
            (smul3 d.2.2 (cross3 r1 r2))) = det3 r1 r2 r3 * d.2.2 := by
        simp only [dot3, add3, smul3, cross3, det3]; ring
      rw [hw, inv_mul_cancel_left₀ hD]

/-- The determinant of the solver's matrix is the squared length of the cross
product `normal`: row-reducing `[b-a, c-b, n]` to `[b-a, c-a, n]` leaves
`det = (b-a) ⬝ ((c-a) × n) = n ⬝ n`. -/
theorem det3_system (a b c : Vec3) :
    det3 (sub3 b a) (sub3 c b) (cross3 (sub3 b a) (sub3 c a))
      = dot3 (cross3 (sub3 b a) (sub3 c a)) (cross3 (sub3 b a) (sub3 c a)) := by
  simp only [det3, dot3, cross3, sub3]; ring

theorem get_circle_params_eq_none_iff (a b c : Vec3) :
    get_circle_params a b c = none ↔
      det3 (sub3 b a) (sub3 c b) (cross3 (sub3 b a) (sub3 c a)) = 0 := by
  simp only [get_circle_params, Option.map_eq_none']
  exact solve3_eq_none_iff _ _ _ _

theorem get_circle_params_eq_none_iff_cross (a b c : Vec3) :
    get_circle_params a b c = none ↔
      cross3 (sub3 b a) (sub3 c a) = ((0 : ℝ), (0 : ℝ), (0 : ℝ)) := by
  rw [get_circle_params_eq_none_iff, det3_system, dot3_self_eq_zero]

theorem get_circle_params_some_iff {a b c : Vec3} {p : Vec3 × Vec3 × ℝ} :
    get_circle_params a b c = some p ↔
      ∃ center,
        solve3 (sub3 b a) (sub3 c b) (cross3 (sub3 b a) (sub3 c a))
            (0.5 * (dot3 b b - dot3 a a), 0.5 * (dot3 c c - dot3 b b),
              dot3 a (cross3 (sub3 b a) (sub3 c a))) = some center ∧
          (center,
            smul3 (norm3 (cross3 (sub3 b a) (sub3 c a)))⁻¹ (cross3 (sub3 b a) (sub3 c a)),
            norm3 (sub3 center a)) = p := by
  simp only [get_circle_params, Option.map_eq_some']

/-! Collinearity and the cross product. -/

theorem cross3_of_collinear {a b c : Vec3} (h : Collinear3 a b c) :
    cross3 (sub3 b a) (sub3 c a) = ((0 : ℝ), (0 : ℝ), (0 : ℝ)) := by
  obtain ⟨t, h | h⟩ := h <;> rw [h] <;>
    simp only [cross3, smul3, Prod.mk.injEq] <;>
    exact ⟨by ring, by ring, by ring⟩

theorem dep_of_cross3_eq_zero {u v : Vec3}
    (h : cross3 u v = ((0 : ℝ), (0 : ℝ), (0 : ℝ))) :
    ∃ t : ℝ, v = smul3 t u ∨ u = smul3 t v := by
  obtain ⟨u1, u2, u3⟩ := u
  obtain ⟨v1, v2, v3⟩ := v
  simp only [cross3, smul3, Prod.mk.injEq] at h ⊢
  obtain ⟨h1, h2, h3⟩ := h
  by_cases hu1 : u1 = 0
  · by_cases hu2 : u2 = 0
    · by_cases hu3 : u3 = 0
      · exact ⟨0, Or.inr ⟨by rw [hu1]; ring, by rw [hu2]; ring, by rw [hu3]; ring⟩⟩
      · refine ⟨v3 / u3, Or.inl ⟨?_, ?_, ?_⟩⟩
        · rw [hu1]
          have : u3 * v1 = 0 := by rw [hu1] at h2; linarith
          rcases mul_eq_zero.mp this with h | h
          · exact absurd h hu3
          · rw [h]; ring
        · rw [hu2]
          have : u3 * v2 = 0 := by rw [hu2] at h1; linarith
          rcases mul_eq_zero.mp this with h | h
          · exact absurd h hu3
          · rw [h]; ring
        · field_simp
    · refine ⟨v2 / u2, Or.inl ⟨?_, ?_, ?_⟩⟩
      · rw [hu1]
        have : u2 * v1 = 0 := by rw [hu1] at h3; linarith
        rcases mul_eq_zero.mp this with h | h
        · exact absurd h hu2
        · rw [h]; ring
      · field_simp
      · field_simp
        linear_combination h1
  · refine ⟨v1 / u1, Or.inl ⟨?_, ?_, ?_⟩⟩
    · field_simp
    · field_simp
      linear_combination h3
    · field_simp
      linear_combination -h2

/-! What a successful solve says about the returned circle. -/

theorem get_circle_params_spec {a b c center n : Vec3} {r : ℝ}
    (h : get_circle_params a b c = some (center, n, r)) :
    cross3 (sub3 b a) (sub3 c a) ≠ ((0 : ℝ), (0 : ℝ), (0 : ℝ)) ∧
      n = smul3 (norm3 (cross3 (sub3 b a) (sub3 c a)))⁻¹ (cross3 (sub3 b a) (sub3 c a)) ∧
      r = norm3 (sub3 center a) ∧
      dot3 (sub3 b a) center = 0.5 * (dot3 b b - dot3 a a) ∧
      dot3 (sub3 c b) center = 0.5 * (dot3 c c - dot3 b b) := by
  obtain ⟨x, hsol, heq⟩ := get_circle_params_some_iff.mp h
  obtain ⟨hD, h1, h2, h3⟩ := solve3_eq_some hsol
  rw [Prod.mk.injEq, Prod.mk.injEq] at heq
  obtain ⟨hx, hn, hr⟩ := heq
  have hxc : x = center := Prod.ext_iff.mpr hx
  subst hxc
  have hcross : cross3 (sub3 b a) (sub3 c a) ≠ ((0 : ℝ), (0 : ℝ), (0 : ℝ)) := by
    intro h0
    exact hD (by rw [det3_system, h0]; simp [dot3])
  exact ⟨hcross, rfl, rfl, h1, h2⟩

/-- A perpendicular-bisector row: `(q - p) ⬝ x = (‖q‖² - ‖p‖²)/2` says `x` is
equidistant from `p` and `q`. -/
theorem equidistant_of_bisector {p q x : Vec3}
    (h : dot3 (sub3 q p) x = 0.5 * (dot3 q q - dot3 p p)) :
    dot3 (sub3 x p) (sub3 x p) = dot3 (sub3 x q) (sub3 x q) := by
  simp only [dot3, sub3] at h ⊢
  linear_combination 2 * h

/-- The scenario input `a=(0,0,0), b=(0,1,1), c=(1,0,0)`: the solver returns
center `(1/2, 1/2, 1/2)`, unit normal `(0, 1/√2, -1/√2)` and radius `√(3/4)`. -/
theorem scenario_eval :
    get_circle_params ((0 : ℝ), 0, 0) ((0 : ℝ), 1, 1) ((1 : ℝ), 0, 0)
      = some (((1 / 2 : ℝ), (1 / 2 : ℝ), (1 / 2 : ℝ)),
          ((0 : ℝ), (Real.sqrt 2)⁻¹, -(Real.sqrt 2)⁻¹), Real.sqrt (3 / 4)) := by
  norm_num [get_circle_params, solve3, det3, dot3, cross3, sub3, add3, smul3, norm3,
    Prod.ext_iff]

/-! Plane-basis construction of `draw_circle3d`. -/

theorem dot3_orth1 (n : Vec3) : dot3 n (orth1 n) = 0 := by
  unfold orth1
  split_ifs with h1 h2 h3
  · simp [dot3, h1]
  · simp [dot3, h2]
  · simp [dot3, h3]
  · simp only [dot3]; ring

theorem orth1_ne_zero (n : Vec3) : orth1 n ≠ ((0 : ℝ), (0 : ℝ), (0 : ℝ)) := by
  unfold orth1
  split_ifs with h1 h2 h3 <;> intro hEq <;> rw [Prod.mk.injEq, Prod.mk.injEq] at hEq
  · exact one_ne_zero hEq.1
  · exact one_ne_zero hEq.2.1
  · exact one_ne_zero hEq.2.2
  · exact mul_ne_zero h2 h3 hEq.1

theorem norm3_eq_one_iff (v : Vec3) : norm3 v = 1 ↔ dot3 v v = 1 := by
  rw [norm3, Real.sqrt_eq_one]

theorem ne_zero_of_norm3_eq_one {v : Vec3} (h : norm3 v = 1) :
    v ≠ ((0 : ℝ), (0 : ℝ), (0 : ℝ)) := by
  intro h0
  rw [norm3, (dot3_self_eq_zero v).mpr h0, Real.sqrt_zero] at h
  exact zero_ne_one h

theorem dot3_orth1n (n : Vec3) : dot3 n (orth1n n) = 0 := by
  rw [orth1n, dot3_smul_right, dot3_orth1, mul_zero]

theorem norm3_orth1n (n : Vec3) : norm3 (orth1n n) = 1 :=
  norm3_unit_of_ne (orth1_ne_zero n)

/-! The spec-side solver: its matrix determinant and application agree with
the componentwise model. -/

theorem matrix_det_eq (r1 r2 r3 : Vec3) :
    (!![r1.1, r1.2.1, r1.2.2;
        r2.1, r2.2.1, r2.2.2;
        r3.1, r3.2.1, r3.2.2] : Matrix (Fin 3) (Fin 3) ℝ).det = det3 r1 r2 r3 := by
  rw [Matrix.det_fin_three]
  norm_num [Matrix.cons_val_zero, Matrix.cons_val_one, Matrix.head_cons, det3, dot3, cross3]
  ring

theorem matrix_mulVec_eq (r1 r2 r3 x : Vec3) :
    (!![r1.1, r1.2.1, r1.2.2;
        r2.1, r2.2.1, r2.2.2;
        r3.1, r3.2.1, r3.2.2] : Matrix (Fin 3) (Fin 3) ℝ).mulVec ![x.1, x.2.1, x.2.2]
      = ![dot3 r1 x, dot3 r2 x, dot3 r3 x] := by
  funext i
  fin_cases i <;>
    simp [Matrix.mulVec, Matrix.dotProduct, Fin.sum_univ_three, dot3]

/-- Claim C6: `get_circle_params` implements the specified algorithm step for
step: it agrees everywhere with the solver built verbatim from the spec's §4.1
(matrix rows `b − a`, `c − b`, `normal`; right-hand side
`[0.5·(‖b‖² − ‖a‖²), 0.5·(‖c‖² − ‖b‖²), a·normal]`; solve; `radius = ‖center − a‖`;
return `(center, normal/‖normal‖, radius)`; `Degenerate` on a singular system). -/
theorem get_circle_params_refines_spec (a b c : Vec3) :
    get_circle_params a b c = solve_spec a b c := by
  by_cases hD : det3 (sub3 b a) (sub3 c b) (cross3 (sub3 b a) (sub3 c a)) = 0
  · have hget : get_circle_params a b c = none := by
      simp only [get_circle_params, Option.map_eq_none']
      exact (solve3_eq_none_iff _ _ _ _).mpr hD
    have hdet : (!![(sub3 b a).1, (sub3 b a).2.1, (sub3 b a).2.2;
        (sub3 c b).1, (sub3 c b).2.1, (sub3 c b).2.2;
        (cross3 (sub3 b a) (sub3 c a)).1, (cross3 (sub3 b a) (sub3 c a)).2.1,
          (cross3 (sub3 b a) (sub3 c a)).2.2] : Matrix (Fin 3) (Fin 3) ℝ).det = 0 := by
      rw [matrix_det_eq]; exact hD
    simp only [solve_spec, hget, if_pos hdet]
  · obtain ⟨x, hsol⟩ : ∃ x,
        solve3 (sub3 b a) (sub3 c b) (cross3 (sub3 b a) (sub3 c a))
          (0.5 * (dot3 b b - dot3 a a), 0.5 * (dot3 c c - dot3 b b),
            dot3 a (cross3 (sub3 b a) (sub3 c a))) = some x := by
      unfold solve3
      rw [if_neg hD]
      exact ⟨_, rfl⟩
    obtain ⟨-, h1, h2, h3⟩ := solve3_eq_some hsol
    have hdet : (!![(sub3 b a).1, (sub3 b a).2.1, (sub3 b a).2.2;
        (sub3 c b).1, (sub3 c b).2.1, (sub3 c b).2.2;
        (cross3 (sub3 b a) (sub3 c a)).1, (cross3 (sub3 b a) (sub3 c a)).2.1,
          (cross3 (sub3 b a) (sub3 c a)).2.2] : Matrix (Fin 3) (Fin 3) ℝ).det ≠ 0 := by
      rw [matrix_det_eq]; exact hD
    have hmv : (!![(sub3 b a).1, (sub3 b a).2.1, (sub3 b a).2.2;
        (sub3 c b).1, (sub3 c b).2.1, (sub3 c b).2.2;
        (cross3 (sub3 b a) (sub3 c a)).1, (cross3 (sub3 b a) (sub3 c a)).2.1,
          (cross3 (sub3 b a) (sub3 c a)).2.2] : Matrix (Fin 3) (Fin 3) ℝ).mulVec
          ![x.1, x.2.1, x.2.2]
        = ![0.5 * (dot3 b b - dot3 a a), 0.5 * (dot3 c c - dot3 b b),
            dot3 a (cross3 (sub3 b a) (sub3 c a))] := by
      rw [matrix_mulVec_eq]
      funext i
      fin_cases i <;> simp [h1, h2, h3]
    have hinv : (!![(sub3 b a).1, (sub3 b a).2.1, (sub3 b a).2.2;
        (sub3 c b).1, (sub3 c b).2.1, (sub3 c b).2.2;
        (cross3 (sub3 b a) (sub3 c a)).1, (cross3 (sub3 b a) (sub3 c a)).2.1,
          (cross3 (sub3 b a) (sub3 c a)).2.2] : Matrix (Fin 3) (Fin 3) ℝ)⁻¹.mulVec
          ![0.5 * (dot3 b b - dot3 a a), 0.5 * (dot3 c c - dot3 b b),
            dot3 a (cross3 (sub3 b a) (sub3 c a))]
        = ![x.1, x.2.1, x.2.2] := by
      rw [← hmv, Matrix.mulVec_mulVec, Matrix.nonsing_inv_mul _ (isUnit_iff_ne_zero.mpr hdet),
        Matrix.one_mulVec]
    simp only [get_circle_params, solve_spec, hsol, Option.map_some', if_neg hdet, hinv,
      Matrix.cons_val_zero, Matrix.cons_val_one, Matrix.head_cons, Matrix.cons_val_two,
      Matrix.tail_cons, Prod.mk.eta]

theorem dot3_comm (u v : Vec3) : dot3 u v = dot3 v u := by
  simp only [dot3]; ring

/-- Claim C1: for every three non-collinear points the solver returns a circle
whose center is equidistant (= radius) from all three points, with a unit
normal and a positive radius. -/
theorem circle_through_noncollinear (a b c : Vec3) (h : ¬Collinear3 a b c) :
    ∃ center n r, get_circle_params a b c = some (center, n, r) ∧
      norm3 (sub3 center a) = r ∧ norm3 (sub3 center b) = r ∧ norm3 (sub3 center c) = r ∧
      norm3 n = 1 ∧ 0 < r := by
  have hcross : cross3 (sub3 b a) (sub3 c a) ≠ ((0 : ℝ), (0 : ℝ), (0 : ℝ)) := by
    intro h0
    exact h ⟨_, (dep_of_cross3_eq_zero h0).choose_spec⟩
  have hD : det3 (sub3 b a) (sub3 c b) (cross3 (sub3 b a) (sub3 c a)) ≠ 0 := by
    rw [det3_system]
    exact fun h0 => hcross ((dot3_self_eq_zero _).mp h0)
  obtain ⟨x, hsol⟩ : ∃ x,
      solve3 (sub3 b a) (sub3 c b) (cross3 (sub3 b a) (sub3 c a))
        (0.5 * (dot3 b b - dot3 a a), 0.5 * (dot3 c c - dot3 b b),
          dot3 a (cross3 (sub3 b a) (sub3 c a))) = some x := by
    unfold solve3
    rw [if_neg hD]
    exact ⟨_, rfl⟩
  have hget : get_circle_params a b c
      = some (x, smul3 (norm3 (cross3 (sub3 b a) (sub3 c a)))⁻¹ (cross3 (sub3 b a) (sub3 c a)),
          norm3 (sub3 x a)) := by
    simp only [get_circle_params, hsol, Option.map_some']
  obtain ⟨-, h1, h2, -⟩ := solve3_eq_some hsol
  have hab : dot3 (sub3 x a) (sub3 x a) = dot3 (sub3 x b) (sub3 x b) :=
    equidistant_of_bisector h1
  have hbc : dot3 (sub3 x b) (sub3 x b) = dot3 (sub3 x c) (sub3 x c) :=
    equidistant_of_bisector h2
  refine ⟨x, _, _, hget, rfl, ?_, ?_, norm3_unit_of_ne hcross, ?_⟩
  · rw [norm3, norm3, hab]
  · rw [norm3, norm3, hab, hbc]
  · apply norm3_pos
    intro h0
    have hb0 : sub3 x b = ((0 : ℝ), (0 : ℝ), (0 : ℝ)) := by
      apply (dot3_self_eq_zero _).mp
      rw [← hab, h0]
      simp [dot3]
    apply hcross
    have hba : sub3 b a = ((0 : ℝ), (0 : ℝ), (0 : ℝ)) := by
      simp only [sub3, Prod.mk.injEq] at h0 hb0 ⊢
      exact ⟨by linarith [h0.1, hb0.1], by linarith [h0.2.1, hb0.2.1],
        by linarith [h0.2.2, hb0.2.2]⟩
    rw [hba]
    simp [cross3]

/-- Claim C1 witness: the scenario `a=(0,0,0), b=(0,1,1), c=(1,0,0)` is not
collinear and the solver returns an equidistant center, unit normal and
positive radius on it. -/
theorem circle_through_noncollinear_witness :
    ¬Collinear3 ((0 : ℝ), 0, 0) ((0 : ℝ), 1, 1) ((1 : ℝ), 0, 0) ∧
      ∃ center n r,
        get_circle_params ((0 : ℝ), 0, 0) ((0 : ℝ), 1, 1) ((1 : ℝ), 0, 0)
            = some (center, n, r) ∧
          norm3 (sub3 center ((0 : ℝ), 0, 0)) = r ∧ norm3 (sub3 center ((0 : ℝ), 1, 1)) = r ∧
          norm3 (sub3 center ((1 : ℝ), 0, 0)) = r ∧ norm3 n = 1 ∧ 0 < r := by
  have h : ¬Collinear3 ((0 : ℝ), 0, 0) ((0 : ℝ), 1, 1) ((1 : ℝ), 0, 0) := by
    rintro ⟨t, h | h⟩ <;> norm_num [sub3, smul3, Prod.mk.injEq] at h
  exact ⟨h, circle_through_noncollinear _ _ _ h⟩

/-- Claim C2: every collinear triple (two coincident points included) makes
the solver return the degenerate result `None`. -/
theorem collinear_returns_none (a b c : Vec3) (h : Collinear3 a b c) :
    get_circle_params a b c = none :=
  (get_circle_params_eq_none_iff_cross a b c).mpr (cross3_of_collinear h)

/-- Claim C2 witness: the collinear triple `(0,0,0), (1,0,0), (2,0,0)` and the
coincident-point triple `(0,0,0), (0,0,0), (1,1,1)` both yield `None`. -/
theorem collinear_returns_none_witness :
    (Collinear3 ((0 : ℝ), 0, 0) ((1 : ℝ), 0, 0) ((2 : ℝ), 0, 0) ∧
        get_circle_params ((0 : ℝ), 0, 0) ((1 : ℝ), 0, 0) ((2 : ℝ), 0, 0) = none) ∧
      (Collinear3 ((0 : ℝ), 0, 0) ((0 : ℝ), 0, 0) ((1 : ℝ), 1, 1) ∧
        get_circle_params ((0 : ℝ), 0, 0) ((0 : ℝ), 0, 0) ((1 : ℝ), 1, 1) = none) := by
  have hc1 : Collinear3 ((0 : ℝ), 0, 0) ((1 : ℝ), 0, 0) ((2 : ℝ), 0, 0) :=
    ⟨2, Or.inl (by norm_num [sub3, smul3, Prod.mk.injEq])⟩
  have hc2 : Collinear3 ((0 : ℝ), 0, 0) ((0 : ℝ), 0, 0) ((1 : ℝ), 1, 1) :=
    ⟨0, Or.inr (by norm_num [sub3, smul3, Prod.mk.injEq])⟩
  exact ⟨⟨hc1, collinear_returns_none _ _ _ hc1⟩, ⟨hc2, collinear_returns_none _ _ _ hc2⟩⟩

/-- Claim C3: whenever the solver returns a circle, its normal has unit length
and is orthogonal to both `b − a` and `c − a`. -/
theorem returned_normal_unit_orthogonal (a b c center n : Vec3) (r : ℝ)
    (h : get_circle_params a b c = some (center, n, r)) :
    norm3 n = 1 ∧ dot3 n (sub3 b a) = 0 ∧ dot3 n (sub3 c a) = 0 := by
  obtain ⟨hcross, hn, -, -, -⟩ := get_circle_params_spec h
  subst hn
  refine ⟨norm3_unit_of_ne hcross, ?_, ?_⟩
  · rw [dot3_comm, dot3_smul_right, dot3_cross_left, mul_zero]
  · rw [dot3_comm, dot3_smul_right, dot3_cross_right, mul_zero]

/-- Claim C3 witness: the normal returned on the scenario input is unit length
and orthogonal to both edges out of `a`. -/
theorem returned_normal_unit_orthogonal_witness :
    norm3 ((0 : ℝ), (Real.sqrt 2)⁻¹, -(Real.sqrt 2)⁻¹) = 1 ∧
      dot3 ((0 : ℝ), (Real.sqrt 2)⁻¹, -(Real.sqrt 2)⁻¹)
        (sub3 ((0 : ℝ), 1, 1) ((0 : ℝ), 0, 0)) = 0 ∧
      dot3 ((0 : ℝ), (Real.sqrt 2)⁻¹, -(Real.sqrt 2)⁻¹)
        (sub3 ((1 : ℝ), 0, 0) ((0 : ℝ), 0, 0)) = 0 :=
  returned_normal_unit_orthogonal _ _ _ _ _ _ scenario_eval

/-- Claim C4 (amended): the solver's singularity test is exact, not
tolerance-based — `get_circle_params` returns the degenerate `None` exactly
when the determinant of the 3×3 system matrix equals zero. -/
theorem singular_test_is_exact (a b c : Vec3) :
    get_circle_params a b c = none ↔
      det3 (sub3 b a) (sub3 c b) (cross3 (sub3 b a) (sub3 c a)) = 0 :=
  get_circle_params_eq_none_iff a b c

/-- Claim C4 counterexample: the near-collinear triple
`a=(0,0,0), b=(1,0,0), c=(2,10⁻⁹,0)` gives a determinant of 10⁻¹⁸ — nonzero
but far below any small relative threshold `ε·‖A‖` (here checked against
`ε = 10⁻¹⁶` with the first matrix row alone of norm 1) — yet the solver still
returns a circle instead of the `Degenerate` the claim requires. -/
theorem near_singular_still_solved :
    det3 (sub3 ((1 : ℝ), 0, 0) ((0 : ℝ), 0, 0))
        (sub3 ((2 : ℝ), 1 / 1000000000, 0) ((1 : ℝ), 0, 0))
        (cross3 (sub3 ((1 : ℝ), 0, 0) ((0 : ℝ), 0, 0))
          (sub3 ((2 : ℝ), 1 / 1000000000, 0) ((0 : ℝ), 0, 0)))
        = 1 / 1000000000000000000 ∧
      norm3 (sub3 ((1 : ℝ), 0, 0) ((0 : ℝ), 0, 0)) = 1 ∧
      (1 / 1000000000000000000 : ℝ)
        < 1 / 10000000000000000 * norm3 (sub3 ((1 : ℝ), 0, 0) ((0 : ℝ), 0, 0)) ∧
      get_circle_params ((0 : ℝ), 0, 0) ((1 : ℝ), 0, 0) ((2 : ℝ), 1 / 1000000000, 0) ≠ none := by
  have hdet : det3 (sub3 ((1 : ℝ), 0, 0) ((0 : ℝ), 0, 0))
      (sub3 ((2 : ℝ), 1 / 1000000000, 0) ((1 : ℝ), 0, 0))
      (cross3 (sub3 ((1 : ℝ), 0, 0) ((0 : ℝ), 0, 0))
        (sub3 ((2 : ℝ), 1 / 1000000000, 0) ((0 : ℝ), 0, 0)))
      = 1 / 1000000000000000000 := by
    norm_num [det3, dot3, cross3, sub3]
  have hn : norm3 (sub3 ((1 : ℝ), 0, 0) ((0 : ℝ), 0, 0)) = 1 := by
    norm_num [norm3, dot3, sub3, Real.sqrt_one]
  refine ⟨hdet, hn, by rw [hn]; norm_num, ?_⟩
  rw [Ne, get_circle_params_eq_none_iff, hdet]
  norm_num

/-- Claim C5: the solver never produces an ill-defined circle — whenever it
returns a value, the two quantities the code divides by (the determinant
inside `np.linalg.solve` and `‖normal‖` in the final normalization) are
nonzero, so center, normal and radius are well-defined reals; the degenerate
case is signalled only by the explicit `None`. -/
theorem some_implies_divisors_nonzero (a b c center n : Vec3) (r : ℝ)
    (h : get_circle_params a b c = some (center, n, r)) :
    det3 (sub3 b a) (sub3 c b) (cross3 (sub3 b a) (sub3 c a)) ≠ 0 ∧
      norm3 (cross3 (sub3 b a) (sub3 c a)) ≠ 0 := by
  obtain ⟨hcross, -, -, -, -⟩ := get_circle_params_spec h
  refine ⟨?_, ne_of_gt (norm3_pos hcross)⟩
  rw [det3_system]
  exact fun h0 => hcross ((dot3_self_eq_zero _).mp h0)

/-- Claim C5 witness: on the scenario input the solver succeeds and both
divisors are nonzero. -/
theorem some_implies_divisors_nonzero_witness :
    det3 (sub3 ((0 : ℝ), 1, 1) ((0 : ℝ), 0, 0))
        (sub3 ((1 : ℝ), 0, 0) ((0 : ℝ), 1, 1))
        (cross3 (sub3 ((0 : ℝ), 1, 1) ((0 : ℝ), 0, 0))
          (sub3 ((1 : ℝ), 0, 0) ((0 : ℝ), 0, 0))) ≠ 0 ∧
      norm3 (cross3 (sub3 ((0 : ℝ), 1, 1) ((0 : ℝ), 0, 0))
        (sub3 ((1 : ℝ), 0, 0) ((0 : ℝ), 0, 0))) ≠ 0 :=
  some_implies_divisors_nonzero _ _ _ _ _ _ scenario_eval

/-- Claim C7: `draw_line3d` emits a 2D segment exactly when both endpoints
project; the emitted segment joins the two projections, and one missing
projection suppresses the draw call entirely. -/
theorem draw_line3d_skips_missing (P : Type) (world_to_screen : Vec3 → Option P)
    (s e : Vec3) :
    ((draw_line3d world_to_screen s e).isSome
        ↔ (world_to_screen s).isSome ∧ (world_to_screen e).isSome) ∧
      (∀ p q, world_to_screen s = some p → world_to_screen e = some q →
        draw_line3d world_to_screen s e = some (p, q)) ∧
      (world_to_screen s = none ∨ world_to_screen e = none →
        draw_line3d world_to_screen s e = none) := by
  cases hs : world_to_screen s <;> cases he : world_to_screen e <;>
    simp [draw_line3d, hs, he]

/-- Claim C8: for any unit normal, the plane-basis construction of
`draw_circle3d` yields two unit vectors orthogonal to each other and to the
normal (in every branch, the axis-aligned fallbacks included). -/
theorem plane_basis_orthonormal (n : Vec3) (h : norm3 n = 1) :
    norm3 (orth1n n) = 1 ∧ norm3 (orth2 n) = 1 ∧
      dot3 n (orth1n n) = 0 ∧ dot3 n (orth2 n) = 0 ∧
      dot3 (orth1n n) (orth2 n) = 0 := by
  have hn1 : dot3 n n = 1 := (norm3_eq_one_iff n).mp h
  have hu : norm3 (orth1n n) = 1 := norm3_orth1n n
  have huu : dot3 (orth1n n) (orth1n n) = 1 := (norm3_eq_one_iff _).mp hu
  have hnu : dot3 n (orth1n n) = 0 := dot3_orth1n n
  refine ⟨hu, ?_, hnu, ?_, ?_⟩
  · rw [norm3_eq_one_iff, orth2, dot3_cross_self_lagrange, hn1, huu, hnu]
    norm_num
  · rw [orth2, dot3_cross_left]
  · rw [orth2, dot3_cross_right]

/-- Claim C8 witness: for the axis-aligned unit normal `(0,0,1)` the
construction takes the fallback branch and still returns an orthonormal
basis of the perpendicular plane. -/
theorem plane_basis_orthonormal_witness :
    norm3 ((0 : ℝ), 0, 1) = 1 ∧
      (norm3 (orth1n ((0 : ℝ), 0, 1)) = 1 ∧ norm3 (orth2 ((0 : ℝ), 0, 1)) = 1 ∧
        dot3 ((0 : ℝ), 0, 1) (orth1n ((0 : ℝ), 0, 1)) = 0 ∧
        dot3 ((0 : ℝ), 0, 1) (orth2 ((0 : ℝ), 0, 1)) = 0 ∧
        dot3 (orth1n ((0 : ℝ), 0, 1)) (orth2 ((0 : ℝ), 0, 1)) = 0) := by
  have h : norm3 ((0 : ℝ), 0, 1) = 1 := by
    norm_num [norm3, dot3, Real.sqrt_one]
  exact ⟨h, plane_basis_orthonormal _ h⟩

/-- Claim C9: `get_circle_params` is pure — run as a method it leaves the node
positions untouched, and its result is a function of the three current node
positions alone, so equal states give equal results. -/
theorem get_circle_params_is_pure (s t : CircumcircleNodes) :
    (get_circle_params_method s).1 = s ∧
      (get_circle_params_method s).2 = get_circle_params s.node0 s.node1 s.node2 ∧
      (s = t → (get_circle_params_method s).2 = (get_circle_params_method t).2) :=
  ⟨rfl, rfl, fun h => by rw [h]⟩

/-- Claim C10: whenever the linear solve succeeds, the cross product
`normal = (b − a) × (c − a)` is nonzero, so the final normalization
`normal / ‖normal‖` never divides by zero. -/
theorem success_implies_normal_nonzero (a b c : Vec3) (p : Vec3 × Vec3 × ℝ)
    (h : get_circle_params a b c = some p) :
    cross3 (sub3 b a) (sub3 c a) ≠ ((0 : ℝ), (0 : ℝ), (0 : ℝ)) ∧
      norm3 (cross3 (sub3 b a) (sub3 c a)) ≠ 0 := by
  obtain ⟨center, n, r⟩ := p
  obtain ⟨hcross, -, -, -, -⟩ := get_circle_params_spec h
  exact ⟨hcross, ne_of_gt (norm3_pos hcross)⟩

/-- Claim C10 witness: on the scenario input the solve succeeds and the cross
product is nonzero. -/
theorem success_implies_normal_nonzero_witness :
    cross3 (sub3 ((0 : ℝ), 1, 1) ((0 : ℝ), 0, 0))
        (sub3 ((1 : ℝ), 0, 0) ((0 : ℝ), 0, 0)) ≠ ((0 : ℝ), (0 : ℝ), (0 : ℝ)) ∧
      norm3 (cross3 (sub3 ((0 : ℝ), 1, 1) ((0 : ℝ), 0, 0))
        (sub3 ((1 : ℝ), 0, 0) ((0 : ℝ), 0, 0))) ≠ 0 :=
  success_implies_normal_nonzero _ _ _ _ scenario_eval

end Circumcircle3
